import Mathlib

set_option linter.unusedSectionVars false

/-!
Verification of the customcolour gradient library (customcolour/cmap.py).

Colour channel values are modelled exactly over a linear ordered field `K`
(instantiated at `ℚ` for executable claims and at `ℝ` where the perceptual
lightness square root is involved).  A matplotlib colormap object is modelled
per the data model of the specification: a name, a sample count `N`, and a
continuous map from a normalized position to an RGBA quadruple; the external
`LinearSegmentedColormap.from_list` constructor is modelled as exact
piecewise-linear interpolation through the given sample rows, with the
default lut size 256 as its `N`.  Python / numpy behaviours that the code
relies on are modelled faithfully: `np.linspace(a, b, n)` returns `[a]` for
`n = 1`, `[]` for `n = 0` and raises `ValueError` for negative `n`;
indexing an empty array raises `IndexError`; ordering a string against a
number raises `TypeError`; Python `round` rounds half to even.
-/

namespace CustomColour

/-- RGBA quadruple of channel values in a field `K`, modelling one sample row. -/
structure RGBA (K : Type) where
  r : K
  g : K
  b : K
  a : K
  deriving DecidableEq, Repr

/-- Model of a matplotlib colormap object: a name, a sample count `N` and a
continuous position-to-colour map on `[0, 1]`. -/
structure Colormap (K : Type) where
  name : String
  N : ℕ
  f : K → RGBA K

/-- Errors the Python code can raise, by kind. -/
inductive PyErr where
  | valueError (msg : String)
  | typeError
  | indexError
  deriving DecidableEq, Repr

/-- Argument of functions taking a string or an already-resolved colormap. -/
inductive CmapArg (K : Type) where
  | name (s : String)
  | cmap (c : Colormap K)

/-- Location argument of add_rgba: a string or a number. -/
inductive Loc (K : Type) where
  | str (s : String)
  | num (q : K)

/-- Registry of named colormaps consulted by plt.cm.get_cmap. -/
def Registry (K : Type) : Type := List (String × Colormap K)

variable {K : Type} [LinearOrderedField K] [FloorRing K]

/-- Element `i` of `np.linspace(a, b, n)`: for `n ≤ 1` the start value, else
the `i`-th evenly spaced value, `a + i * (b - a) / (n - 1)`. -/
def linElt (a b : K) (n i : ℕ) : K :=
  if n ≤ 1 then a else a + (i : K) * (b - a) / ((n : K) - 1)

/-- Model of `np.linspace(a, b, n)` for a non-negative sample count `n`. -/
def linspaceK (a b : K) (n : ℕ) : List K :=
  (List.range n).map (linElt a b n)

/-- Message raised by numpy when a linspace sample count is negative. -/
def numSamplesMsg : String := "Number of samples must be non-negative"

/-- Model of `np.linspace(a, b, n)` with a possibly negative integer count,
raising numpy ValueError on negative counts (cmap.py line 183). -/
def linspaceZ (a b : K) (n : ℤ) : Except PyErr (List K) :=
  if n < 0 then .error (.valueError numSamplesMsg)
  else .ok (linspaceK a b n.toNat)

/-- Python `lst[0]` on a list, raising IndexError when empty. -/
def pyHead {α : Type} (l : List α) : Except PyErr α :=
  match l.head? with
  | some x => .ok x
  | none => .error .indexError

/-- Python `lst[-1]` on a list, raising IndexError when empty. -/
def pyLast {α : Type} (l : List α) : Except PyErr α :=
  match l.getLast? with
  | some x => .ok x
  | none => .error .indexError

/-- Python `round` on an exact value: round half to even (used for
`round(norig * loc)` at cmap.py line 194). -/
def pyRound (q : K) : ℤ :=
  let n := ⌊q⌋
  let r := q - (n : K)
  if r < 1 / 2 then n
  else if 1 / 2 < r then n + 1
  else if n % 2 = 0 then n else n + 1

/-- Linear interpolation `a + t * (b - a)`. -/
def lerp (t a b : K) : K := a + t * (b - a)

/-- Per-channel linear interpolation of two RGBA rows. -/
def lerpRGBA (t : K) (c d : RGBA K) : RGBA K :=
  ⟨lerp t c.r d.r, lerp t c.g d.g, lerp t c.b d.b, lerp t c.a d.a⟩

/-- Model of the continuous map of `LinearSegmentedColormap.from_list`:
exact piecewise-linear interpolation through the anchor rows `l`, placed at
evenly spaced positions of `[0, 1]`. -/
def interpList (l : List (RGBA K)) (x : K) : RGBA K :=
  if l.length ≤ 1 then l.headD ⟨0, 0, 0, 0⟩
  else
    let n := l.length
    let t := x * ((n : K) - 1)
    let i := min (Int.toNat ⌊t⌋) (n - 2)
    lerpRGBA (t - (i : K)) (l.getD i ⟨0, 0, 0, 0⟩) (l.getD (i + 1) ⟨0, 0, 0, 0⟩)

/-- Model of `col.LinearSegmentedColormap.from_list(name, l)`: the default
lut size is 256, the continuous map interpolates the rows of `l`. -/
def fromList (name : String) (l : List (RGBA K)) : Colormap K :=
  ⟨name, 256, interpList l⟩

/-- Model of `plt.cm.get_cmap(name)`: registry lookup, raising the
matplotlib lookup ValueError when the name is unknown. -/
def get_cmap (reg : Registry K) (s : String) : Except PyErr (Colormap K) :=
  match List.lookup s reg with
  | some c => .ok c
  | none => .error (.valueError ("Colormap " ++ s ++ " is not recognized"))

/-- cmap.py lines 52-69: import_colormap returns a colormap object unchanged
and resolves a string through `plt.cm.get_cmap`. -/
def import_colormap (reg : Registry K) : CmapArg K → Except PyErr (Colormap K)
  | .name s => get_cmap reg s
  | .cmap c => .ok c

/-- cmap.py lines 259-279: blend_rgba, per-channel `np.linspace` between two
RGBA rows over `npts` samples, rows transposed into a sample table. -/
def blend_rgba (rgba1 rgba2 : RGBA K) (npts : ℕ) : List (RGBA K) :=
  (List.range npts).map (fun i =>
    ⟨linElt rgba1.r rgba2.r npts i, linElt rgba1.g rgba2.g npts i,
     linElt rgba1.b rgba2.b npts i, linElt rgba1.a rgba2.a npts i⟩)

/-- Sample table of a colormap at `n` evenly spaced positions,
modelling `cm(np.linspace(0, 1, n))`. -/
def sampleList (cm : Colormap K) (n : ℕ) : List (RGBA K) :=
  (linspaceK 0 1 n).map cm.f

/-- cmap.py line 198: forward transition length of the mid branch. -/
def mid_nfwd (nblend : ℕ) : ℕ := (nblend + 1) / 2

/-- cmap.py line 199: backward transition length of the mid branch. -/
def mid_nbak (nblend : ℕ) : ℕ := (nblend + 1) / 2 + (nblend + 1) % 2

/-- cmap.py lines 198-204: mid-branch table construction at split index
`nmid`: first slice, backward blend into the target, forward blend out of
the target with its first row dropped, second slice. -/
def midBuild (clisti : List (RGBA K)) (rgba : RGBA K) (nblend nmid : ℕ) :
    Except PyErr (List (RGBA K)) := do
  let nfwd := mid_nfwd nblend
  let nbak := mid_nbak nblend
  let clstart := clisti.take nmid
  let clend := clisti.drop nmid
  let cl ← pyLast clstart
  let clmid1 := blend_rgba cl rgba nbak
  let c0 ← pyHead clend
  let clmid2 := (blend_rgba rgba c0 nfwd).drop 1
  pure (clstart ++ clmid1 ++ clmid2 ++ clend)

/-- Message of the ValueError raised for an unrecognized loc (line 196). -/
def unrecognizedLocMsg : String := "unrecognized value for loc"

/-- cmap.py lines 179-204 without the final from_list wrapping: the sample
table produced by add_rgba for a resolved colormap `cm` and an explicit
`ncolor`.  Follows the source exactly: `norig = ncolor - nblend`, original
samples at `np.linspace(0, 1, norig)`, then the location branches. -/
def add_rgba_clist (cm : Colormap K) (rgba : RGBA K) (nblend : ℕ)
    (loc : Loc K) (ncolor : ℕ) : Except PyErr (List (RGBA K)) := do
  let norig : ℤ := (ncolor : ℤ) - (nblend : ℤ)
  let xs ← linspaceZ (0 : K) 1 norig
  let clisti := xs.map cm.f
  match loc with
  | .str s =>
    if s = "start" then do
      let c0 ← pyHead clisti
      pure (blend_rgba rgba c0 nblend ++ clisti)
    else if s = "end" then do
      let cl ← pyLast clisti
      pure (clisti ++ blend_rgba cl rgba nblend)
    else if s = "mid" then
      midBuild clisti rgba nblend (clisti.length / 2)
    else
      .error .typeError
  | .num q =>
    if q = 0 then do
      let c0 ← pyHead clisti
      pure (blend_rgba rgba c0 nblend ++ clisti)
    else if q = 1 then do
      let cl ← pyLast clisti
      pure (clisti ++ blend_rgba cl rgba nblend)
    else if 0 < q ∧ q < 1 then
      midBuild clisti rgba nblend (pyRound ((norig : K) * q)).toNat
    else
      .error (.valueError unrecognizedLocMsg)

/-- cmap.py lines 151-206: add_rgba with the defaulting of `ncolor` to
`cm.N` and the from_list wrapping with an added name marker. -/
def add_rgba (reg : Registry K) (arg : CmapArg K) (rgba : RGBA K)
    (nblend : ℕ := 28) (loc : Loc K := .str "start")
    (ncolor? : Option ℕ := none) : Except PyErr (Colormap K) := do
  let cm ← import_colormap reg arg
  let ncolor := ncolor?.getD cm.N
  let clist ← add_rgba_clist cm rgba nblend loc ncolor
  pure (fromList ("a" ++ cm.name) clist)

/-- cmap.py lines 209-231: add_white, blending opaque white and renaming the
result with a leading w marker. -/
def add_white (reg : Registry K) (arg : CmapArg K) (nblend : ℕ := 28)
    (loc : Loc K := .str "start") (ncolor? : Option ℕ := none) :
    Except PyErr (Colormap K) := do
  let cm ← add_rgba reg arg ⟨1, 1, 1, 1⟩ nblend loc ncolor?
  pure { cm with name := "w" ++ cm.name.drop 1 }

/-- cmap.py lines 234-256: add_black, blending opaque black and renaming the
result with a leading b marker. -/
def add_black (reg : Registry K) (arg : CmapArg K) (nblend : ℕ := 28)
    (loc : Loc K := .str "start") (ncolor? : Option ℕ := none) :
    Except PyErr (Colormap K) := do
  let cm ← add_rgba reg arg ⟨0, 0, 0, 1⟩ nblend loc ncolor?
  pure { cm with name := "b" ++ cm.name.drop 1 }

/-- cmap.py lines 72-95: rgba_lightness, with the square root passed as the
interpretation of `np.sqrt` (instantiated at `Real.sqrt` in theorems). -/
def rgba_lightness (sq : K → K) (c : RGBA K) : K :=
  sq (0.299 * c.r ^ 2 + 0.587 * c.g ^ 2 + 0.114 * c.b ^ 2)

/-- cmap.py lines 118-119: the grayscale sample table, each row having its
R, G, B channels replaced by the row lightness, alpha unchanged. -/
def grayscale_clist (sq : K → K) (cm : Colormap K) (n : ℕ) : List (RGBA K) :=
  (sampleList cm n).map (fun c =>
    let l := rgba_lightness sq c
    ⟨l, l, l, c.a⟩)

/-- cmap.py lines 98-121: grayscale_colormap with `ncolor` defaulting to
`cm.N` and the g name marker. -/
def grayscale_colormap (sq : K → K) (reg : Registry K) (arg : CmapArg K)
    (ncolor? : Option ℕ := none) : Except PyErr (Colormap K) := do
  let cm ← import_colormap reg arg
  let n := ncolor?.getD cm.N
  pure (fromList ("g" ++ cm.name) (grayscale_clist sq cm n))

/-- cmap.py lines 145-146: the inverted sample table, R, G, B replaced by
one minus their values, alpha unchanged. -/
def invert_clist (cm : Colormap K) (n : ℕ) : List (RGBA K) :=
  (sampleList cm n).map (fun c => ⟨1 - c.r, 1 - c.g, 1 - c.b, c.a⟩)

/-- cmap.py lines 124-148: invert_colormap with `ncolor` defaulting to
`cm.N` and the i name marker. -/
def invert_colormap (reg : Registry K) (arg : CmapArg K)
    (ncolor? : Option ℕ := none) : Except PyErr (Colormap K) := do
  let cm ← import_colormap reg arg
  let n := ncolor?.getD cm.N
  pure (fromList ("i" ++ cm.name) (invert_clist cm n))

/-- cmap.py lines 32-49: populate_maps builds the wiridis custom map from
add_white on the reversed viridis builtin and renames it to its key.  The
resulting dictionary is only merged into the module attributes (lines
283-284); the matplotlib registry consulted by get_cmap is never extended. -/
def populate_maps (reg : Registry K) :
    Except PyErr (List (String × Colormap K)) := do
  let w ← add_white reg (.name "viridis_r")
  pure [("wiridis", { w with name := "wiridis" })]

/-- Concrete stand-in colormap used for evaluations: a constant opaque
black gradient with the matplotlib default sample count 256. -/
def cmConst : Colormap ℚ := ⟨"viridis_r", 256, fun _ => ⟨0, 0, 0, 1⟩⟩

/-- Concrete base registry holding only the reversed viridis stand-in. -/
def baseReg : Registry ℚ := [("viridis_r", cmConst)]

/-! ## Helper lemmas -/

theorem length_linspaceK (a b : K) (n : ℕ) : (linspaceK a b n).length = n := by
  simp [linspaceK]

theorem length_blend_rgba (c d : RGBA K) (n : ℕ) :
    (blend_rgba c d n).length = n := by
  simp [blend_rgba]

theorem linElt_zero (a b : K) (n : ℕ) : linElt a b n 0 = a := by
  unfold linElt
  split <;> simp

theorem linElt_last (a b : K) (n : ℕ) (h : 2 ≤ n) :
    linElt a b n (n - 1) = b := by
  have hn : ¬ n ≤ 1 := by omega
  have hne : ((n : K) - 1) ≠ 0 := by
    have : (1 : K) < (n : K) := by exact_mod_cast Nat.lt_of_lt_of_le one_lt_two h
    intro hc
    nlinarith
  have hcast : ((n - 1 : ℕ) : K) = (n : K) - 1 := by
    have : (1 : ℕ) ≤ n := by omega
    push_cast [Nat.cast_sub this]
    ring
  unfold linElt
  rw [if_neg hn, hcast]
  field_simp

theorem blend_rgba_head (c d : RGBA K) (n : ℕ) (h : 1 ≤ n) :
    (blend_rgba c d n).head? = some c := by
  obtain ⟨m, rfl⟩ : ∃ m, n = m + 1 := ⟨n - 1, by omega⟩
  simp [blend_rgba, List.range_succ_eq_map, linElt_zero]

theorem blend_rgba_getLast (c d : RGBA K) (n : ℕ) (h : 2 ≤ n) :
    (blend_rgba c d n).getLast? = some d := by
  obtain ⟨m, rfl⟩ : ∃ m, n = m + 1 := ⟨n - 1, by omega⟩
  have key : ∀ x y : K, linElt x y (m + 1) m = y := fun x y => by
    have := linElt_last x y (m + 1) h
    simpa using this
  simp [blend_rgba, List.range_succ, List.getLast?_append, key]

theorem pyHead_ok {α : Type} (l : List α) (x : α) (h : l.head? = some x) :
    pyHead l = .ok x := by
  simp [pyHead, h]

theorem pyLast_ok {α : Type} (l : List α) (x : α) (h : l.getLast? = some x) :
    pyLast l = .ok x := by
  simp [pyLast, h]

theorem pyHead_nil {α : Type} : pyHead ([] : List α) = .error .indexError := rfl

theorem pyLast_nil {α : Type} : pyLast ([] : List α) = .error .indexError := rfl

theorem mid_nbak_add_nfwd (nblend : ℕ) :
    mid_nbak nblend + mid_nfwd nblend = nblend + 1 := by
  have := Nat.div_add_mod (nblend + 1) 2
  unfold mid_nbak mid_nfwd
  omega

theorem mid_nfwd_pos (nblend : ℕ) (h : 1 ≤ nblend) : 1 ≤ mid_nfwd nblend := by
  unfold mid_nfwd
  omega

theorem midBuild_ok (l : List (RGBA K)) (rgba : RGBA K) (nblend nmid : ℕ)
    (hb : 1 ≤ nblend) (h1 : 1 ≤ nmid) (h2 : nmid < l.length) :
    ∃ out, midBuild l rgba nblend nmid = .ok out ∧
      out.length = l.length + nblend := by
  have htake : (l.take nmid).length = nmid := by
    rw [List.length_take]
    omega
  have htne : l.take nmid ≠ [] := by
    intro hc
    rw [hc] at htake
    simp at htake
    omega
  have hdne : l.drop nmid ≠ [] := by
    intro hc
    have := List.length_drop nmid l
    rw [hc] at this
    simp at this
    omega
  obtain ⟨cl, hcl⟩ := List.getLast?_isSome.mpr htne |> Option.isSome_iff_exists.mp
  obtain ⟨c0, hc0⟩ : ∃ c0, (l.drop nmid).head? = some c0 := by
    cases hh : (l.drop nmid).head? with
    | none => exact absurd (List.head?_eq_none_iff.mp hh) hdne
    | some c => exact ⟨c, rfl⟩
  refine ⟨l.take nmid ++ blend_rgba cl rgba (mid_nbak nblend) ++
      (blend_rgba rgba c0 (mid_nfwd nblend)).drop 1 ++ l.drop nmid, ?_, ?_⟩
  · simp only [midBuild]
    rw [pyLast_ok _ _ hcl, pyHead_ok _ _ hc0]
    rfl
  · have hfwd := mid_nfwd_pos nblend hb
    have hsum := mid_nbak_add_nfwd nblend
    simp only [List.length_append, List.length_take, length_blend_rgba,
      List.length_drop]
    omega

theorem midBuild_err_left (l : List (RGBA K)) (rgba : RGBA K) (nblend : ℕ) :
    midBuild l rgba nblend 0 = .error .indexError := by
  unfold midBuild
  simp [pyLast_nil]
  rfl

theorem midBuild_err_right (l : List (RGBA K)) (rgba : RGBA K)
    (nblend nmid : ℕ) (h1 : 1 ≤ nmid) (hl : l ≠ []) (h2 : l.length ≤ nmid) :
    midBuild l rgba nblend nmid = .error .indexError := by
  have htne : l.take nmid ≠ [] := by
    rw [Ne, List.take_eq_nil_iff]
    push_neg
    exact ⟨by omega, hl⟩
  obtain ⟨cl, hcl⟩ := List.getLast?_isSome.mpr htne |> Option.isSome_iff_exists.mp
  have hd : l.drop nmid = [] := List.drop_eq_nil_of_le h2
  simp only [midBuild, hd]
  rw [pyLast_ok _ _ hcl]
  rfl

theorem bindE_ok {ε α β : Type} (a : α) (f : α → Except ε β) :
    (Except.ok a >>= f) = f a := rfl

theorem bindE_err {ε α β : Type} (e : ε) (f : α → Except ε β) :
    ((Except.error e : Except ε α) >>= f) = .error e := rfl

theorem head?_exists {α : Type} (l : List α) (h : l ≠ []) :
    ∃ x, l.head? = some x := by
  cases hh : l.head? with
  | none => exact absurd (List.head?_eq_none_iff.mp hh) h
  | some c => exact ⟨c, rfl⟩

theorem getLast?_exists {α : Type} (l : List α) (h : l ≠ []) :
    ∃ x, l.getLast? = some x :=
  Option.isSome_iff_exists.mp (List.getLast?_isSome.mpr h)

theorem sampleList_length (cm : Colormap K) (n : ℕ) :
    (sampleList cm n).length = n := by
  simp [sampleList, length_linspaceK]

theorem sampleList_ne_nil (cm : Colormap K) (n : ℕ) (h : 1 ≤ n) :
    sampleList cm n ≠ [] := by
  intro hc
  have := congrArg List.length hc
  rw [sampleList_length] at this
  simp at this
  omega

theorem linspaceZ_nonneg (a b : K) (n : ℤ) (h : 0 ≤ n) :
    linspaceZ a b n = .ok (linspaceK a b n.toNat) := by
  rw [linspaceZ, if_neg (by omega)]

/-- Evaluation of add_rgba_clist in the start branch (loc the string start
or the number 0): the blend rows from the target into the first original
sample, followed by the original samples. -/
theorem add_clist_start (cm : Colormap K) (rgba : RGBA K) (nblend ncolor : ℕ)
    (loc : Loc K) (hloc : loc = .str "start" ∨ loc = .num 0)
    (h : nblend ≤ ncolor) (hno : 1 ≤ ncolor - nblend) :
    ∃ c0, (sampleList cm (ncolor - nblend)).head? = some c0 ∧
      add_rgba_clist cm rgba nblend loc ncolor =
        .ok (blend_rgba rgba c0 nblend ++ sampleList cm (ncolor - nblend)) := by
  have hz : ((ncolor : ℤ) - (nblend : ℤ)).toNat = ncolor - nblend := by omega
  have hlin : linspaceZ (0 : K) 1 ((ncolor : ℤ) - (nblend : ℤ)) =
      .ok (linspaceK 0 1 (ncolor - nblend)) := by
    rw [linspaceZ_nonneg _ _ _ (by omega), hz]
  obtain ⟨c0, hc0⟩ :=
    head?_exists _ (sampleList_ne_nil cm (ncolor - nblend) hno)
  refine ⟨c0, hc0, ?_⟩
  rcases hloc with rfl | rfl <;>
  · simp only [add_rgba_clist, hlin, bindE_ok]
    simp only [sampleList] at hc0
    simp [pyHead_ok _ _ hc0, sampleList]

/-- Evaluation of add_rgba_clist in the end branch (loc the string end or
the number 1): the original samples followed by the blend rows from the
last original sample into the target. -/
theorem add_clist_end (cm : Colormap K) (rgba : RGBA K) (nblend ncolor : ℕ)
    (loc : Loc K) (hloc : loc = .str "end" ∨ loc = .num 1)
    (h : nblend ≤ ncolor) (hno : 1 ≤ ncolor - nblend) :
    ∃ cl, (sampleList cm (ncolor - nblend)).getLast? = some cl ∧
      add_rgba_clist cm rgba nblend loc ncolor =
        .ok (sampleList cm (ncolor - nblend) ++ blend_rgba cl rgba nblend) := by
  have hz : ((ncolor : ℤ) - (nblend : ℤ)).toNat = ncolor - nblend := by omega
  have hlin : linspaceZ (0 : K) 1 ((ncolor : ℤ) - (nblend : ℤ)) =
      .ok (linspaceK 0 1 (ncolor - nblend)) := by
    rw [linspaceZ_nonneg _ _ _ (by omega), hz]
  obtain ⟨cl, hcl⟩ :=
    getLast?_exists _ (sampleList_ne_nil cm (ncolor - nblend) hno)
  refine ⟨cl, hcl, ?_⟩
  rcases hloc with rfl | rfl <;>
  · simp only [add_rgba_clist, hlin, bindE_ok]
    simp only [sampleList] at hcl
    simp [pyLast_ok _ _ hcl, sampleList]

/-- Evaluation of add_rgba_clist in the string mid branch: a midBuild at
split index norig over two. -/
theorem add_clist_mid_str (cm : Colormap K) (rgba : RGBA K)
    (nblend ncolor : ℕ) (h : nblend ≤ ncolor) :
    add_rgba_clist cm rgba nblend (.str "mid") ncolor =
      midBuild (sampleList cm (ncolor - nblend)) rgba nblend
        ((ncolor - nblend) / 2) := by
  have hz : ((ncolor : ℤ) - (nblend : ℤ)).toNat = ncolor - nblend := by omega
  have hlin : linspaceZ (0 : K) 1 ((ncolor : ℤ) - (nblend : ℤ)) =
      .ok (linspaceK 0 1 (ncolor - nblend)) := by
    rw [linspaceZ_nonneg _ _ _ (by omega), hz]
  simp only [add_rgba_clist, hlin, bindE_ok]
  simp [sampleList, sampleList_length, length_linspaceK]

/-- Evaluation of add_rgba_clist at a fractional numeric location: a
midBuild at the rounded split index. -/
theorem add_clist_mid_num (cm : Colormap K) (rgba : RGBA K)
    (nblend ncolor : ℕ) (q : K) (hq0 : 0 < q) (hq1 : q < 1)
    (h : nblend ≤ ncolor) :
    add_rgba_clist cm rgba nblend (.num q) ncolor =
      midBuild (sampleList cm (ncolor - nblend)) rgba nblend
        (pyRound (((ncolor - nblend : ℕ) : K) * q)).toNat := by
  have hz : ((ncolor : ℤ) - (nblend : ℤ)).toNat = ncolor - nblend := by omega
  have hlin : linspaceZ (0 : K) 1 ((ncolor : ℤ) - (nblend : ℤ)) =
      .ok (linspaceK 0 1 (ncolor - nblend)) := by
    rw [linspaceZ_nonneg _ _ _ (by omega), hz]
  have hcast : (((ncolor : ℤ) - (nblend : ℤ) : ℤ) : K) =
      ((ncolor - nblend : ℕ) : K) := by
    push_cast [Nat.cast_sub h]
    ring
  simp only [add_rgba_clist, hlin, bindE_ok]
  rw [if_neg (by exact ne_of_gt hq0), if_neg (by exact ne_of_lt hq1),
    if_pos ⟨hq0, hq1⟩, hcast]
  simp [sampleList]

/-- Evaluation of add_rgba_clist at a string location other than start,
end or mid: the order comparison of a string against a number raises
TypeError (cmap.py line 193). -/
theorem add_clist_str_other (cm : Colormap K) (rgba : RGBA K)
    (nblend ncolor : ℕ) (s : String) (h : nblend ≤ ncolor)
    (h1 : s ≠ "start") (h2 : s ≠ "end") (h3 : s ≠ "mid") :
    add_rgba_clist cm rgba nblend (.str s) ncolor = .error .typeError := by
  have hlin : linspaceZ (0 : K) 1 ((ncolor : ℤ) - (nblend : ℤ)) =
      .ok (linspaceK 0 1 (((ncolor : ℤ) - (nblend : ℤ)).toNat)) :=
    linspaceZ_nonneg _ _ _ (by omega)
  simp only [add_rgba_clist, hlin, bindE_ok]
  simp [h1, h2, h3]

/-- Evaluation of add_rgba_clist at a numeric location outside the unit
interval and different from 0 and 1: the unrecognized-loc ValueError
(cmap.py line 196). -/
theorem add_clist_num_other (cm : Colormap K) (rgba : RGBA K)
    (nblend ncolor : ℕ) (q : K) (h : nblend ≤ ncolor)
    (h1 : q ≠ 0) (h2 : q ≠ 1) (h3 : ¬(0 < q ∧ q < 1)) :
    add_rgba_clist cm rgba nblend (.num q) ncolor =
      .error (.valueError unrecognizedLocMsg) := by
  have hlin : linspaceZ (0 : K) 1 ((ncolor : ℤ) - (nblend : ℤ)) =
      .ok (linspaceK 0 1 (((ncolor : ℤ) - (nblend : ℤ)).toNat)) :=
    linspaceZ_nonneg _ _ _ (by omega)
  simp only [add_rgba_clist, hlin, bindE_ok]
  simp [h1, h2, h3]

/-- Evaluation of add_rgba_clist with a negative norig: the numpy linspace
ValueError preempts every location branch (cmap.py line 183). -/
theorem add_clist_neg (cm : Colormap K) (rgba : RGBA K) (nblend ncolor : ℕ)
    (loc : Loc K) (h : ncolor < nblend) :
    add_rgba_clist cm rgba nblend loc ncolor =
      .error (.valueError numSamplesMsg) := by
  have hlin : linspaceZ (0 : K) 1 ((ncolor : ℤ) - (nblend : ℤ)) =
      .error (.valueError numSamplesMsg) := by
    rw [linspaceZ, if_pos (by omega)]
  simp only [add_rgba_clist, hlin, bindE_err]

theorem pyRound_zero : pyRound (0 : K) = 0 := by
  unfold pyRound
  rw [Int.floor_zero]
  norm_num

/-- Evaluation of add_rgba_clist in the start branch when norig is zero:
indexing the first element of the empty original-sample array raises
IndexError (cmap.py line 185). -/
theorem add_clist_start_empty (cm : Colormap K) (rgba : RGBA K) (ncolor : ℕ)
    (loc : Loc K) (hloc : loc = .str "start" ∨ loc = .num 0) :
    add_rgba_clist cm rgba ncolor loc ncolor = .error .indexError := by
  have hlin : linspaceZ (0 : K) 1 ((ncolor : ℤ) - (ncolor : ℤ)) =
      .ok (linspaceK 0 1 0) := by
    rw [linspaceZ_nonneg _ _ _ (by omega)]
    norm_num
  rcases hloc with rfl | rfl <;>
  · simp only [add_rgba_clist, hlin, bindE_ok]
    simp [linspaceK, pyHead_nil]

/-- Evaluation of add_rgba_clist in the end branch when norig is zero:
indexing the last element of the empty original-sample array raises
IndexError (cmap.py line 188). -/
theorem add_clist_end_empty (cm : Colormap K) (rgba : RGBA K) (ncolor : ℕ)
    (loc : Loc K) (hloc : loc = .str "end" ∨ loc = .num 1) :
    add_rgba_clist cm rgba ncolor loc ncolor = .error .indexError := by
  have hlin : linspaceZ (0 : K) 1 ((ncolor : ℤ) - (ncolor : ℤ)) =
      .ok (linspaceK 0 1 0) := by
    rw [linspaceZ_nonneg _ _ _ (by omega)]
    norm_num
  rcases hloc with rfl | rfl <;>
  · simp only [add_rgba_clist, hlin, bindE_ok]
    simp [linspaceK, pyLast_nil]

/-! ## Claim theorems -/

/-- Claim C1, counterexample: with the gradient cmConst, nblend = 1 and
ncolor = 2 (so norig = 1 is positive) the accepted location mid makes the
first original slice empty, `clstart[-1]` raises IndexError, and no table
of ncolor rows is produced. -/
theorem add_rgba_count_cex :
    add_rgba_clist cmConst ⟨1, 1, 1, 1⟩ 1 (.str "mid") 2 =
      .error .indexError := by
  rw [add_clist_mid_str cmConst ⟨1, 1, 1, 1⟩ 1 2 (by omega)]
  exact midBuild_err_left _ _ _

/-- Claim C1 (amended): for every gradient, target colour, nblend at least
one and ncolor exceeding nblend, the add_rgba sample table has exactly
ncolor rows in the start branch (loc start or 0), the end branch (loc end
or 1), the mid branch provided norig is at least two (so both split slices
are non-empty), and every fractional-location branch whose rounded split
index lies strictly between 0 and norig. -/
theorem add_rgba_count (cm : Colormap ℚ) (rgba : RGBA ℚ)
    (nblend ncolor : ℕ) (hb : 1 ≤ nblend) (hn : nblend < ncolor) :
    (∀ loc : Loc ℚ, (loc = .str "start" ∨ loc = .num 0 ∨
        loc = .str "end" ∨ loc = .num 1) →
      ∃ l, add_rgba_clist cm rgba nblend loc ncolor = .ok l ∧
        l.length = ncolor) ∧
    (2 ≤ ncolor - nblend →
      ∃ l, add_rgba_clist cm rgba nblend (.str "mid") ncolor = .ok l ∧
        l.length = ncolor) ∧
    (∀ q : ℚ, 0 < q → q < 1 →
      1 ≤ (pyRound (((ncolor - nblend : ℕ) : ℚ) * q)).toNat →
      (pyRound (((ncolor - nblend : ℕ) : ℚ) * q)).toNat < ncolor - nblend →
      ∃ l, add_rgba_clist cm rgba nblend (.num q) ncolor = .ok l ∧
        l.length = ncolor) := by
  have hno : 1 ≤ ncolor - nblend := by omega
  have hle : nblend ≤ ncolor := by omega
  refine ⟨?_, ?_, ?_⟩
  · intro loc hloc
    rcases hloc with h | h | h | h
    · obtain ⟨c0, _, heq⟩ :=
        add_clist_start cm rgba nblend ncolor loc (Or.inl h) hle hno
      refine ⟨_, heq, ?_⟩
      simp only [List.length_append, length_blend_rgba, sampleList_length]
      omega
    · obtain ⟨c0, _, heq⟩ :=
        add_clist_start cm rgba nblend ncolor loc (Or.inr h) hle hno
      refine ⟨_, heq, ?_⟩
      simp only [List.length_append, length_blend_rgba, sampleList_length]
      omega
    · obtain ⟨cl, _, heq⟩ :=
        add_clist_end cm rgba nblend ncolor loc (Or.inl h) hle hno
      refine ⟨_, heq, ?_⟩
      simp only [List.length_append, length_blend_rgba, sampleList_length]
      omega
    · obtain ⟨cl, _, heq⟩ :=
        add_clist_end cm rgba nblend ncolor loc (Or.inr h) hle hno
      refine ⟨_, heq, ?_⟩
      simp only [List.length_append, length_blend_rgba, sampleList_length]
      omega
  · intro h2
    rw [add_clist_mid_str cm rgba nblend ncolor hle]
    obtain ⟨out, ho, hlen⟩ :=
      midBuild_ok (sampleList cm (ncolor - nblend)) rgba nblend
        ((ncolor - nblend) / 2) hb (by omega)
        (by rw [sampleList_length]; omega)
    refine ⟨out, ho, ?_⟩
    rw [hlen, sampleList_length]
    omega
  · intro q hq0 hq1 hm1 hm2
    rw [add_clist_mid_num cm rgba nblend ncolor q hq0 hq1 hle]
    obtain ⟨out, ho, hlen⟩ :=
      midBuild_ok (sampleList cm (ncolor - nblend)) rgba nblend
        ((pyRound (((ncolor - nblend : ℕ) : ℚ) * q)).toNat) hb hm1
        (by rw [sampleList_length]; omega)
    refine ⟨out, ho, ?_⟩
    rw [hlen, sampleList_length]
    omega

/-- Claim C1, witness: the amended count theorem applied at cmConst,
nblend = 3, ncolor = 8 in the mid branch. -/
theorem add_rgba_count_witness :
    ∃ l, add_rgba_clist cmConst ⟨1, 1, 1, 1⟩ 3 (.str "mid") 8 = .ok l ∧
      l.length = 8 :=
  (add_rgba_count cmConst ⟨1, 1, 1, 1⟩ 3 8 (by omega) (by omega)).2.1
    (by omega)

/-- Claim C2, counterexample: for the even blend width 4 the backward
transition length of the code is 3, not the ceiling of four halves, which
is 2. -/
theorem mid_split_cex : mid_nbak 4 ≠ (4 + 1) / 2 := by decide

/-- Claim C2 (amended): in the mid branch the forward transition length is
the ceiling of nblend over two, nfwd = (nblend + 1) / 2, and the backward
length is nbak = nblend / 2 + 1, so nbak + nfwd = nblend + 1; the forward
transition then drops its first sample, which equals the target colour, so
exactly nbak + (nfwd - 1) = nblend blended samples are inserted. -/
theorem mid_split (nblend : ℕ) (hb : 1 ≤ nblend) :
    mid_nfwd nblend = (nblend + 1) / 2 ∧
    mid_nbak nblend = nblend / 2 + 1 ∧
    mid_nbak nblend + mid_nfwd nblend = nblend + 1 ∧
    mid_nbak nblend + (mid_nfwd nblend - 1) = nblend ∧
    ∀ rgba c0 : RGBA ℚ,
      (blend_rgba rgba c0 (mid_nfwd nblend)).head? = some rgba := by
  have hsum := mid_nbak_add_nfwd nblend
  have hpos := mid_nfwd_pos nblend hb
  refine ⟨rfl, ?_, hsum, by omega, ?_⟩
  · unfold mid_nbak
    omega
  · intro rgba c0
    exact blend_rgba_head rgba c0 _ hpos

/-- Claim C2, witness: the amended split arithmetic at nblend = 4. -/
theorem mid_split_witness :
    mid_nfwd 4 = (4 + 1) / 2 ∧
    mid_nbak 4 = 4 / 2 + 1 ∧
    mid_nbak 4 + mid_nfwd 4 = 4 + 1 ∧
    mid_nbak 4 + (mid_nfwd 4 - 1) = 4 ∧
    ∀ rgba c0 : RGBA ℚ,
      (blend_rgba rgba c0 (mid_nfwd 4)).head? = some rgba :=
  mid_split 4 (by omega)

/-- Claim C3, counterexample: with nblend = ncolor = 5 (norig zero) and
the accepted location start, add_rgba does not fail with an invalid-value
error where norig is computed; the empty original array is built without
complaint and the failure is an IndexError in the location branch. -/
theorem add_rgba_norig_cex :
    add_rgba_clist cmConst ⟨1, 1, 1, 1⟩ 5 (.str "start") 5 =
      .error .indexError ∧
    PyErr.indexError ≠ PyErr.valueError numSamplesMsg :=
  ⟨add_clist_start_empty cmConst ⟨1, 1, 1, 1⟩ 5 _ (Or.inl rfl), by decide⟩

/-- Claim C3 (amended): whenever nblend is at least ncolor no table is ever
produced, for every location value; when nblend strictly exceeds ncolor the
failure is the numpy invalid-value error raised where the original samples
are drawn, and when nblend equals ncolor it is an IndexError raised inside
the accepted location branches. -/
theorem add_rgba_norig (cm : Colormap ℚ) (rgba : RGBA ℚ)
    (nblend ncolor : ℕ) (h : ncolor ≤ nblend) :
    (∀ loc : Loc ℚ, ∃ e,
      add_rgba_clist cm rgba nblend loc ncolor = .error e) ∧
    (ncolor < nblend → ∀ loc : Loc ℚ,
      add_rgba_clist cm rgba nblend loc ncolor =
        .error (.valueError numSamplesMsg)) ∧
    (ncolor = nblend → ∀ loc : Loc ℚ,
      (loc = .str "start" ∨ loc = .num 0 ∨ loc = .str "end" ∨
          loc = .num 1 ∨ loc = .str "mid" ∨
          (∃ q, loc = .num q ∧ 0 < q ∧ q < 1)) →
      add_rgba_clist cm rgba nblend loc ncolor = .error .indexError) := by
  have hmain : ncolor = nblend → ∀ loc : Loc ℚ,
      (loc = .str "start" ∨ loc = .num 0 ∨ loc = .str "end" ∨
          loc = .num 1 ∨ loc = .str "mid" ∨
          (∃ q, loc = .num q ∧ 0 < q ∧ q < 1)) →
      add_rgba_clist cm rgba nblend loc ncolor = .error .indexError := by
    rintro rfl loc (h | h | h | h | h | ⟨q, rfl, hq0, hq1⟩)
    · exact add_clist_start_empty cm rgba ncolor loc (Or.inl h)
    · exact add_clist_start_empty cm rgba ncolor loc (Or.inr h)
    · exact add_clist_end_empty cm rgba ncolor loc (Or.inl h)
    · exact add_clist_end_empty cm rgba ncolor loc (Or.inr h)
    · subst h
      rw [add_clist_mid_str cm rgba ncolor ncolor le_rfl]
      have : ncolor - ncolor = 0 := by omega
      rw [this]
      exact midBuild_err_left _ _ _
    · rw [add_clist_mid_num cm rgba ncolor ncolor q hq0 hq1 le_rfl]
      have : ncolor - ncolor = 0 := by omega
      rw [this]
      have hz : (pyRound (((0 : ℕ) : ℚ) * q)).toNat = 0 := by
        norm_num [pyRound_zero]
      rw [hz]
      exact midBuild_err_left _ _ _
  refine ⟨?_, fun hlt loc => add_clist_neg cm rgba nblend ncolor loc hlt,
    hmain⟩
  intro loc
  rcases lt_or_eq_of_le h with hlt | heq
  · exact ⟨_, add_clist_neg cm rgba nblend ncolor loc hlt⟩
  · subst heq
    match loc with
    | .str s =>
      by_cases h1 : s = "start"
      · exact ⟨_, hmain rfl _ (Or.inl (by rw [h1]))⟩
      · by_cases h2 : s = "end"
        · exact ⟨_, hmain rfl _ (Or.inr (Or.inr (Or.inl (by rw [h2]))))⟩
        · by_cases h3 : s = "mid"
          · exact ⟨_, hmain rfl _
              (Or.inr (Or.inr (Or.inr (Or.inr (Or.inl (by rw [h3]))))))⟩
          · exact ⟨_, add_clist_str_other cm rgba ncolor ncolor s le_rfl
              h1 h2 h3⟩
    | .num q =>
      by_cases h1 : q = 0
      · exact ⟨_, hmain rfl _ (Or.inr (Or.inl (by rw [h1])))⟩
      · by_cases h2 : q = 1
        · exact ⟨_, hmain rfl _
            (Or.inr (Or.inr (Or.inr (Or.inl (by rw [h2])))))⟩
        · by_cases h3 : 0 < q ∧ q < 1
          · exact ⟨_, hmain rfl _
              (Or.inr (Or.inr (Or.inr (Or.inr (Or.inr
                ⟨q, rfl, h3.1, h3.2⟩)))))⟩
          · exact ⟨_, add_clist_num_other cm rgba ncolor ncolor q le_rfl
              h1 h2 h3⟩

/-- Claim C3, witness: the amended theorem at nblend = ncolor = 5 with
location end, and at nblend = 6, ncolor = 5. -/
theorem add_rgba_norig_witness :
    (∃ e, add_rgba_clist cmConst ⟨1, 1, 1, 1⟩ 5 (.str "end") 5 =
      .error e) ∧
    add_rgba_clist cmConst ⟨1, 1, 1, 1⟩ 6 (.str "end") 5 =
      .error (.valueError numSamplesMsg) :=
  ⟨(add_rgba_norig cmConst ⟨1, 1, 1, 1⟩ 5 5 le_rfl).1 _,
   (add_rgba_norig cmConst ⟨1, 1, 1, 1⟩ 6 5 (by omega)).2.1 (by omega) _⟩

/-- Claim C4, counterexample: the unrecognized string location middle does
not produce the unrecognized-loc ValueError; the comparison of a string
against a number raises a TypeError instead. -/
theorem add_rgba_loc_cex :
    add_rgba_clist cmConst ⟨1, 1, 1, 1⟩ 2 (.str "middle") 5 =
      .error .typeError ∧
    PyErr.typeError ≠ PyErr.valueError unrecognizedLocMsg :=
  ⟨add_clist_str_other cmConst ⟨1, 1, 1, 1⟩ 2 5 "middle" (by omega)
      (by decide) (by decide) (by decide), by decide⟩

/-- Claim C4 (amended): with nblend not exceeding ncolor, a numeric
location outside the closed unit interval fails with the unrecognized-loc
ValueError, while a string location other than start, end and mid fails
with a TypeError raised by the order comparison of the string against a
number. -/
theorem add_rgba_loc (cm : Colormap ℚ) (rgba : RGBA ℚ)
    (nblend ncolor : ℕ) (h : nblend ≤ ncolor) :
    (∀ q : ℚ, q < 0 ∨ 1 < q →
      add_rgba_clist cm rgba nblend (.num q) ncolor =
        .error (.valueError unrecognizedLocMsg)) ∧
    (∀ s : String, s ≠ "start" → s ≠ "end" → s ≠ "mid" →
      add_rgba_clist cm rgba nblend (.str s) ncolor =
        .error .typeError) := by
  constructor
  · intro q hq
    refine add_clist_num_other cm rgba nblend ncolor q h ?_ ?_ ?_
    · rcases hq with hq | hq <;> intro hc <;> rw [hc] at hq <;> linarith
    · rcases hq with hq | hq <;> intro hc <;> rw [hc] at hq <;> linarith
    · rintro ⟨h0, h1⟩
      rcases hq with hq | hq <;> linarith
  · intro s h1 h2 h3
    exact add_clist_str_other cm rgba nblend ncolor s h h1 h2 h3

/-- Claim C4, witness: the amended theorem at the numeric location 2 and
the string location middle. -/
theorem add_rgba_loc_witness :
    add_rgba_clist cmConst ⟨1, 1, 1, 1⟩ 2 (.num 2) 5 =
      .error (.valueError unrecognizedLocMsg) ∧
    add_rgba_clist cmConst ⟨1, 1, 1, 1⟩ 2 (.str "middle") 5 =
      .error .typeError :=
  ⟨(add_rgba_loc cmConst ⟨1, 1, 1, 1⟩ 2 5 (by omega)).1 2 (by norm_num),
   (add_rgba_loc cmConst ⟨1, 1, 1, 1⟩ 2 5 (by omega)).2 "middle"
      (by decide) (by decide) (by decide)⟩

theorem blend_rgba_one (c d : RGBA K) : blend_rgba c d 1 = [c] := by
  simp [blend_rgba, List.range_succ, linElt_zero]

/-- Claim C5, counterexample: with a single blend point the produced table
is the single row rgba1, so the last row does not equal rgba2 although
npts = 1 is at least one. -/
theorem blend_rgba_cex :
    blend_rgba (K := ℚ) ⟨0, 0, 0, 1⟩ ⟨1, 1, 1, 1⟩ 1 = [⟨0, 0, 0, 1⟩] ∧
    (blend_rgba (K := ℚ) ⟨0, 0, 0, 1⟩ ⟨1, 1, 1, 1⟩ 1).getLast? ≠
      some ⟨1, 1, 1, 1⟩ := by
  constructor
  · exact blend_rgba_one _ _
  · rw [blend_rgba_one]
    decide

/-- Claim C5 (amended): blend_rgba returns exactly npts rows obtained by
independent per-channel linear interpolation over evenly spaced steps; the
first row equals rgba1 for every npts at least one, and the last row equals
rgba2 whenever npts is at least two, while npts = 1 yields the single row
rgba1. -/
theorem blend_rgba_spec (c d : RGBA ℚ) (npts : ℕ) (h : 1 ≤ npts) :
    (blend_rgba c d npts).length = npts ∧
    (blend_rgba c d npts).head? = some c ∧
    (2 ≤ npts → (blend_rgba c d npts).getLast? = some d) ∧
    (npts = 1 → blend_rgba c d npts = [c]) ∧
    (∀ i, i < npts → 2 ≤ npts →
      (blend_rgba c d npts).getD i ⟨0, 0, 0, 0⟩ =
        lerpRGBA ((i : ℚ) / ((npts : ℚ) - 1)) c d) := by
  refine ⟨length_blend_rgba c d npts, blend_rgba_head c d npts h,
    fun h2 => blend_rgba_getLast c d npts h2,
    fun h1 => by rw [h1]; exact blend_rgba_one c d, ?_⟩
  intro i hi h2
  have hlen : i < (blend_rgba c d npts).length := by
    rw [length_blend_rgba]
    exact hi
  rw [List.getD_eq_getElem _ _ hlen]
  have hn : ¬ npts ≤ 1 := by omega
  simp only [blend_rgba, List.getElem_map, List.getElem_range,
    lerpRGBA, lerp, linElt, if_neg hn]
  simp only [RGBA.mk.injEq]
  refine ⟨?_, ?_, ?_, ?_⟩ <;> ring

/-- Claim C5, witness: the amended blend theorem at npts = 3. -/
theorem blend_rgba_spec_witness :
    (blend_rgba (K := ℚ) ⟨0, 0, 0, 1⟩ ⟨1, 1, 1, 1⟩ 3).length = 3 ∧
    (blend_rgba (K := ℚ) ⟨0, 0, 0, 1⟩ ⟨1, 1, 1, 1⟩ 3).head? =
      some ⟨0, 0, 0, 1⟩ ∧
    (2 ≤ 3 → (blend_rgba (K := ℚ) ⟨0, 0, 0, 1⟩ ⟨1, 1, 1, 1⟩ 3).getLast? =
      some ⟨1, 1, 1, 1⟩) ∧
    (3 = 1 → blend_rgba (K := ℚ) ⟨0, 0, 0, 1⟩ ⟨1, 1, 1, 1⟩ 3 =
      [⟨0, 0, 0, 1⟩]) ∧
    (∀ i, i < 3 → 2 ≤ 3 →
      (blend_rgba (K := ℚ) ⟨0, 0, 0, 1⟩ ⟨1, 1, 1, 1⟩ 3).getD i
          ⟨0, 0, 0, 0⟩ =
        lerpRGBA ((i : ℚ) / ((3 : ℚ) - 1)) ⟨0, 0, 0, 1⟩ ⟨1, 1, 1, 1⟩) :=
  blend_rgba_spec ⟨0, 0, 0, 1⟩ ⟨1, 1, 1, 1⟩ 3 (by omega)

/-- Claim C6, counterexample: blending white into the end of the constant
black gradient with nblend = 1 and ncolor = 2 yields a table whose last
sample is black, not the target white, although nblend and norig are both
at least one. -/
theorem add_rgba_end_cex :
    ∃ l, add_rgba_clist cmConst ⟨1, 1, 1, 1⟩ 1 (.str "end") 2 = .ok l ∧
      l.getLast? = some ⟨0, 0, 0, 1⟩ ∧
      (⟨0, 0, 0, 1⟩ : RGBA ℚ) ≠ ⟨1, 1, 1, 1⟩ := by
  obtain ⟨cl, hcl, heq⟩ :=
    add_clist_end cmConst ⟨1, 1, 1, 1⟩ 1 2 _ (Or.inl rfl) (by omega)
      (by omega)
  have hs : sampleList cmConst (2 - 1) = [⟨0, 0, 0, 1⟩] := by decide
  rw [hs] at hcl heq
  simp only [List.getLast?_singleton, Option.some.injEq] at hcl
  subst hcl
  refine ⟨_, heq, ?_, by decide⟩
  rw [blend_rgba_one]
  decide

/-- Claim C6 (amended): for every gradient, target colour, nblend at least
one and positive norig, the start table begins with the target colour
exactly; the end table finishes with the target colour exactly whenever
nblend is at least two, while for nblend = 1 it finishes with the last
original sample instead. -/
theorem add_rgba_endpoints (cm : Colormap ℚ) (rgba : RGBA ℚ)
    (nblend ncolor : ℕ) (hb : 1 ≤ nblend) (hn : nblend < ncolor) :
    (∀ loc : Loc ℚ, loc = .str "start" ∨ loc = .num 0 →
      ∃ l, add_rgba_clist cm rgba nblend loc ncolor = .ok l ∧
        l.head? = some rgba) ∧
    (2 ≤ nblend → ∀ loc : Loc ℚ, loc = .str "end" ∨ loc = .num 1 →
      ∃ l, add_rgba_clist cm rgba nblend loc ncolor = .ok l ∧
        l.getLast? = some rgba) ∧
    (nblend = 1 → ∀ loc : Loc ℚ, loc = .str "end" ∨ loc = .num 1 →
      ∃ l cl, (sampleList cm (ncolor - nblend)).getLast? = some cl ∧
        add_rgba_clist cm rgba nblend loc ncolor = .ok l ∧
        l.getLast? = some cl) := by
  have hle : nblend ≤ ncolor := by omega
  have hno : 1 ≤ ncolor - nblend := by omega
  refine ⟨?_, ?_, ?_⟩
  · intro loc hloc
    obtain ⟨c0, _, heq⟩ :=
      add_clist_start cm rgba nblend ncolor loc hloc hle hno
    refine ⟨_, heq, ?_⟩
    rw [List.head?_append, blend_rgba_head rgba c0 nblend hb]
    rfl
  · intro h2 loc hloc
    obtain ⟨cl, _, heq⟩ :=
      add_clist_end cm rgba nblend ncolor loc hloc hle hno
    refine ⟨_, heq, ?_⟩
    rw [List.getLast?_append, blend_rgba_getLast cl rgba nblend h2]
    rfl
  · intro h1 loc hloc
    obtain ⟨cl, hcl, heq⟩ :=
      add_clist_end cm rgba nblend ncolor loc hloc hle hno
    refine ⟨_, cl, hcl, heq, ?_⟩
    rw [h1, blend_rgba_one, List.getLast?_append]
    rfl

/-- Claim C6, witness: the amended endpoint theorem at cmConst with
nblend = 2 and ncolor = 4 for both the start and the end branch. -/
theorem add_rgba_endpoints_witness :
    (∃ l, add_rgba_clist cmConst ⟨1, 1, 1, 1⟩ 2 (.str "start") 4 = .ok l ∧
      l.head? = some ⟨1, 1, 1, 1⟩) ∧
    (∃ l, add_rgba_clist cmConst ⟨1, 1, 1, 1⟩ 2 (.str "end") 4 = .ok l ∧
      l.getLast? = some ⟨1, 1, 1, 1⟩) :=
  ⟨(add_rgba_endpoints cmConst ⟨1, 1, 1, 1⟩ 2 4 (by omega) (by omega)).1 _
      (Or.inl rfl),
   (add_rgba_endpoints cmConst ⟨1, 1, 1, 1⟩ 2 4 (by omega) (by omega)).2.1
      (by omega) _ (Or.inl rfl)⟩

/-- Claim C10: in the fractional mid branch add_rgba returns a gradient
table exactly when the rounded split index nmid lies strictly between 0
and norig; when nmid is 0 or norig one of the two original slices is empty
and indexing its endpoint raises the out-of-bounds IndexError. -/
theorem add_rgba_mid_totality (cm : Colormap ℚ) (rgba : RGBA ℚ)
    (nblend ncolor : ℕ) (q : ℚ) (hb : 1 ≤ nblend)
    (hno : 1 ≤ ncolor - nblend) (hq0 : 0 < q) (hq1 : q < 1) :
    (1 ≤ (pyRound (((ncolor - nblend : ℕ) : ℚ) * q)).toNat →
      (pyRound (((ncolor - nblend : ℕ) : ℚ) * q)).toNat < ncolor - nblend →
      ∃ l, add_rgba_clist cm rgba nblend (.num q) ncolor = .ok l) ∧
    ((pyRound (((ncolor - nblend : ℕ) : ℚ) * q)).toNat = 0 ∨
        (pyRound (((ncolor - nblend : ℕ) : ℚ) * q)).toNat = ncolor - nblend →
      add_rgba_clist cm rgba nblend (.num q) ncolor =
        .error .indexError) := by
  have hle : nblend ≤ ncolor := by omega
  constructor
  · intro h1 h2
    rw [add_clist_mid_num cm rgba nblend ncolor q hq0 hq1 hle]
    obtain ⟨out, ho, _⟩ :=
      midBuild_ok (sampleList cm (ncolor - nblend)) rgba nblend _ hb h1
        (by rw [sampleList_length]; exact h2)
    exact ⟨out, ho⟩
  · intro hm
    rw [add_clist_mid_num cm rgba nblend ncolor q hq0 hq1 hle]
    rcases hm with hm | hm
    · rw [hm]
      exact midBuild_err_left _ _ _
    · rw [hm]
      exact midBuild_err_right _ _ _ _ (by omega)
        (sampleList_ne_nil cm _ hno) (by rw [sampleList_length])

/-- Claim C10, witness: with norig = 10 and the fractional location one
hundredth the rounded split index is 0 and add_rgba raises IndexError. -/
theorem add_rgba_mid_totality_witness :
    add_rgba_clist cmConst ⟨1, 1, 1, 1⟩ 2 (.num (1 / 100)) 12 =
      .error .indexError :=
  (add_rgba_mid_totality cmConst ⟨1, 1, 1, 1⟩ 2 12 (1 / 100) (by omega)
      (by omega) (by norm_num) (by norm_num)).2
    (Or.inl (by norm_num [pyRound]))

theorem lerpRGBA_zero (c d : RGBA K) : lerpRGBA 0 c d = c := by
  simp [lerpRGBA, lerp]

theorem lerpRGBA_one (c d : RGBA K) : lerpRGBA 1 c d = d := by
  cases c
  cases d
  simp only [lerpRGBA, lerp, RGBA.mk.injEq]
  refine ⟨?_, ?_, ?_, ?_⟩ <;> ring

/-- Interpolation through a sample list is exact on the anchor positions:
at the j-th of length-many evenly spaced positions it returns row j. -/
theorem interpList_anchor (l : List (RGBA K)) (j : ℕ) (hj : j < l.length) :
    interpList l (linElt 0 1 l.length j) = l.getD j ⟨0, 0, 0, 0⟩ := by
  by_cases h1 : l.length ≤ 1
  · have hj0 : j = 0 := by omega
    subst hj0
    rw [interpList, if_pos h1]
    match l with
    | [] => simp at hj
    | c :: t => rfl
  · have h2 : 2 ≤ l.length := by omega
    have hne : ((l.length : K) - 1) ≠ 0 := by
      have : (1 : K) < (l.length : K) := by exact_mod_cast h2
      intro hc
      nlinarith
    have hx : linElt (0 : K) 1 l.length j * ((l.length : K) - 1) = (j : K) := by
      unfold linElt
      rw [if_neg h1]
      field_simp
    rw [interpList, if_neg h1]
    simp only [hx, Int.floor_natCast, Int.toNat_natCast]
    by_cases hj2 : j ≤ l.length - 2
    · rw [min_eq_left hj2]
      simp [lerpRGBA_zero]
    · have hj3 : j = l.length - 1 := by omega
      rw [min_eq_right (by omega)]
      have hc : (j : K) - ((l.length - 2 : ℕ) : K) = 1 := by
        rw [hj3]
        push_cast [Nat.cast_sub (by omega : 1 ≤ l.length),
          Nat.cast_sub (by omega : 2 ≤ l.length)]
        ring
      rw [hc, lerpRGBA_one]
      have : l.length - 2 + 1 = j := by omega
      rw [this]

/-- Sampling a from_list colormap at as many evenly spaced positions as it
has anchor rows reproduces the anchor rows exactly. -/
theorem sampleList_fromList (name : String) (l : List (RGBA K)) (n : ℕ)
    (hn : n = l.length) :
    sampleList (fromList name l) n = l := by
  subst hn
  apply List.ext_getElem (by rw [sampleList_length])
  intro j h1 h2
  have h3 : j < (linspaceK (0 : K) 1 l.length).length := by
    rw [length_linspaceK]
    rw [sampleList_length] at h1
    exact h1
  have h4 := interpList_anchor l j h2
  rw [List.getD_eq_getElem _ _ h2] at h4
  simp only [sampleList, fromList, linspaceK] at *
  simpa using h4

/-- Claim C7: inversion flips the R, G, B channels of every sample to one
minus their values with alpha unchanged, and applying invert_colormap twice
at the same sample count reproduces the original sample values. -/
theorem invert_spec (reg : Registry ℚ) (cm : Colormap ℚ) (n j : ℕ)
    (hj : j < n) :
    (((invert_clist cm n).getD j ⟨0, 0, 0, 0⟩).r =
        1 - ((sampleList cm n).getD j ⟨0, 0, 0, 0⟩).r ∧
      ((invert_clist cm n).getD j ⟨0, 0, 0, 0⟩).g =
        1 - ((sampleList cm n).getD j ⟨0, 0, 0, 0⟩).g ∧
      ((invert_clist cm n).getD j ⟨0, 0, 0, 0⟩).b =
        1 - ((sampleList cm n).getD j ⟨0, 0, 0, 0⟩).b ∧
      ((invert_clist cm n).getD j ⟨0, 0, 0, 0⟩).a =
        ((sampleList cm n).getD j ⟨0, 0, 0, 0⟩).a) ∧
    (∀ cm2 : Colormap ℚ,
      invert_colormap reg (.cmap cm) (some n) = .ok cm2 →
      invert_clist cm2 n = sampleList cm n) := by
  constructor
  · have hlen : j < (sampleList cm n).length := by
      rw [sampleList_length]
      exact hj
    have hlen2 : j < (invert_clist cm n).length := by
      simp only [invert_clist, List.length_map]
      exact hlen
    rw [List.getD_eq_getElem _ _ hlen, List.getD_eq_getElem _ _ hlen2]
    simp [invert_clist]
  · intro cm2 h
    have h2 : cm2 = fromList ("i" ++ cm.name) (invert_clist cm n) := by
      have hh : invert_colormap reg (.cmap cm) (some n) =
          .ok (fromList ("i" ++ cm.name) (invert_clist cm n)) := rfl
      rw [hh] at h
      exact (Except.ok.inj h).symm
    subst h2
    have hlen : n = (invert_clist cm n).length := by
      simp [invert_clist, sampleList_length]
    rw [show invert_clist (fromList ("i" ++ cm.name) (invert_clist cm n)) n =
        (sampleList (fromList ("i" ++ cm.name) (invert_clist cm n)) n).map
          (fun c => ⟨1 - c.r, 1 - c.g, 1 - c.b, c.a⟩) from rfl,
      sampleList_fromList _ _ _ hlen]
    unfold invert_clist
    rw [List.map_map]
    have hid : ((fun c : RGBA ℚ =>
        (⟨1 - c.r, 1 - c.g, 1 - c.b, c.a⟩ : RGBA ℚ)) ∘
        fun c : RGBA ℚ =>
        (⟨1 - c.r, 1 - c.g, 1 - c.b, c.a⟩ : RGBA ℚ)) = id := by
      funext c
      cases c
      simp only [Function.comp_apply, id_eq, RGBA.mk.injEq]
      refine ⟨by ring, by ring, by ring, trivial⟩
    rw [hid, List.map_id]

/-- Claim C7, witness: the inversion relations at the constant black
gradient with two samples. -/
theorem invert_spec_witness :
    (((invert_clist cmConst 2).getD 0 ⟨0, 0, 0, 0⟩).r =
        1 - ((sampleList cmConst 2).getD 0 ⟨0, 0, 0, 0⟩).r ∧
      ((invert_clist cmConst 2).getD 0 ⟨0, 0, 0, 0⟩).g =
        1 - ((sampleList cmConst 2).getD 0 ⟨0, 0, 0, 0⟩).g ∧
      ((invert_clist cmConst 2).getD 0 ⟨0, 0, 0, 0⟩).b =
        1 - ((sampleList cmConst 2).getD 0 ⟨0, 0, 0, 0⟩).b ∧
      ((invert_clist cmConst 2).getD 0 ⟨0, 0, 0, 0⟩).a =
        ((sampleList cmConst 2).getD 0 ⟨0, 0, 0, 0⟩).a) ∧
    (∀ cm2 : Colormap ℚ,
      invert_colormap [] (.cmap cmConst) (some 2) = .ok cm2 →
      invert_clist cm2 2 = sampleList cmConst 2) :=
  invert_spec [] cmConst 2 0 (by omega)

/-- Claim C8: the grayscale sample table has exactly n rows; every row has
its R, G and B channels equal to the perceptual lightness, the real square
root of the weighted sum of squared original channels, with alpha
unchanged; and the lightness of white is 1, of black 0, and of pure red
the square root of 0.299. -/
theorem grayscale_spec (cm : Colormap ℝ) (n j : ℕ) (hj : j < n) :
    (grayscale_clist Real.sqrt cm n).length = n ∧
    ((grayscale_clist Real.sqrt cm n).getD j ⟨0, 0, 0, 0⟩).r =
      Real.sqrt (0.299 * ((sampleList cm n).getD j ⟨0, 0, 0, 0⟩).r ^ 2 +
        0.587 * ((sampleList cm n).getD j ⟨0, 0, 0, 0⟩).g ^ 2 +
        0.114 * ((sampleList cm n).getD j ⟨0, 0, 0, 0⟩).b ^ 2) ∧
    ((grayscale_clist Real.sqrt cm n).getD j ⟨0, 0, 0, 0⟩).g =
      ((grayscale_clist Real.sqrt cm n).getD j ⟨0, 0, 0, 0⟩).r ∧
    ((grayscale_clist Real.sqrt cm n).getD j ⟨0, 0, 0, 0⟩).b =
      ((grayscale_clist Real.sqrt cm n).getD j ⟨0, 0, 0, 0⟩).r ∧
    ((grayscale_clist Real.sqrt cm n).getD j ⟨0, 0, 0, 0⟩).a =
      ((sampleList cm n).getD j ⟨0, 0, 0, 0⟩).a ∧
    rgba_lightness Real.sqrt ⟨1, 1, 1, 1⟩ = 1 ∧
    rgba_lightness Real.sqrt ⟨0, 0, 0, 1⟩ = 0 ∧
    rgba_lightness Real.sqrt ⟨1, 0, 0, 1⟩ = Real.sqrt 0.299 := by
  have hlen : j < (sampleList cm n).length := by
    rw [sampleList_length]
    exact hj
  have hlen2 : j < (grayscale_clist Real.sqrt cm n).length := by
    simp only [grayscale_clist, List.length_map]
    exact hlen
  refine ⟨by simp [grayscale_clist, sampleList_length], ?_, ?_, ?_, ?_,
    ?_, ?_, ?_⟩
  · rw [List.getD_eq_getElem _ _ hlen, List.getD_eq_getElem _ _ hlen2]
    simp [grayscale_clist, rgba_lightness]
  · rw [List.getD_eq_getElem _ _ hlen2]
    simp [grayscale_clist]
  · rw [List.getD_eq_getElem _ _ hlen2]
    simp [grayscale_clist]
  · rw [List.getD_eq_getElem _ _ hlen, List.getD_eq_getElem _ _ hlen2]
    simp [grayscale_clist]
  · unfold rgba_lightness
    norm_num
  · unfold rgba_lightness
    norm_num
  · unfold rgba_lightness
    norm_num

/-- Claim C8, witness: the grayscale relations at a one-sample colormap. -/
theorem grayscale_spec_witness :
    (grayscale_clist Real.sqrt (fromList "c" []) 1).length = 1 ∧
    ((grayscale_clist Real.sqrt (fromList "c" []) 1).getD 0
        ⟨0, 0, 0, 0⟩).r =
      Real.sqrt (0.299 * ((sampleList (fromList "c" []) 1).getD 0
          ⟨0, 0, 0, 0⟩).r ^ 2 +
        0.587 * ((sampleList (fromList "c" []) 1).getD 0
          ⟨0, 0, 0, 0⟩).g ^ 2 +
        0.114 * ((sampleList (fromList "c" []) 1).getD 0
          ⟨0, 0, 0, 0⟩).b ^ 2) ∧
    ((grayscale_clist Real.sqrt (fromList "c" []) 1).getD 0
        ⟨0, 0, 0, 0⟩).g =
      ((grayscale_clist Real.sqrt (fromList "c" []) 1).getD 0
        ⟨0, 0, 0, 0⟩).r ∧
    ((grayscale_clist Real.sqrt (fromList "c" []) 1).getD 0
        ⟨0, 0, 0, 0⟩).b =
      ((grayscale_clist Real.sqrt (fromList "c" []) 1).getD 0
        ⟨0, 0, 0, 0⟩).r ∧
    ((grayscale_clist Real.sqrt (fromList "c" []) 1).getD 0
        ⟨0, 0, 0, 0⟩).a =
      ((sampleList (fromList "c" []) 1).getD 0 ⟨0, 0, 0, 0⟩).a ∧
    rgba_lightness Real.sqrt ⟨1, 1, 1, 1⟩ = 1 ∧
    rgba_lightness Real.sqrt ⟨0, 0, 0, 1⟩ = 0 ∧
    rgba_lightness Real.sqrt ⟨1, 0, 0, 1⟩ = Real.sqrt 0.299 :=
  grayscale_spec (fromList "c" []) 1 0 (by omega)

/-- Claim C9, counterexample: with the matplotlib registry containing the
reversed viridis builtin but, as in reality, no entry named wiridis (the
module only adds the custom map to its own attributes and never registers
it), resolving the name wiridis through import_colormap fails with the
lookup ValueError instead of succeeding. -/
theorem wiridis_lookup_cex :
    import_colormap baseReg (.name "wiridis") =
      .error (.valueError "Colormap wiridis is not recognized") := by
  simp [import_colormap, get_cmap, baseReg, List.lookup]

/-- Claim C9 (amended): the wiridis gradient is successfully built at
module load time (populate_maps returns it, renamed to wiridis), but it is
only stored in the module attribute dictionary; the registry consulted by
import_colormap is never extended, so resolving the string name wiridis
fails with the matplotlib lookup error. -/
theorem wiridis_lookup (reg : Registry ℚ) (vir : Colormap ℚ)
    (h1 : List.lookup "viridis_r" reg = some vir) (h2 : vir.N = 256)
    (h3 : List.lookup "wiridis" reg = none) :
    (∃ w, populate_maps reg = .ok [("wiridis", w)] ∧
      w.name = "wiridis") ∧
    import_colormap reg (.name "wiridis") =
      .error (.valueError "Colormap wiridis is not recognized") := by
  constructor
  · obtain ⟨c0, hc0, heq⟩ :=
      add_clist_start vir ⟨1, 1, 1, 1⟩ 28 256 _ (Or.inl rfl) (by omega)
        (by omega)
    have himp : import_colormap reg (CmapArg.name "viridis_r") =
        .ok vir := by
      simp [import_colormap, get_cmap, h1]
    refine ⟨⟨"wiridis", 256,
      interpList (blend_rgba ⟨1, 1, 1, 1⟩ c0 28 ++
        sampleList vir (256 - 28))⟩, ?_, rfl⟩
    simp only [populate_maps, add_white, add_rgba, himp, bindE_ok,
      Option.getD_none, h2, heq]
    rfl
  · simp [import_colormap, get_cmap, h3]

/-- Claim C9, witness: the amended theorem at the concrete base registry
holding only the reversed viridis stand-in. -/
theorem wiridis_lookup_witness :
    (∃ w, populate_maps baseReg = .ok [("wiridis", w)] ∧
      w.name = "wiridis") ∧
    import_colormap baseReg (.name "wiridis") =
      .error (.valueError "Colormap wiridis is not recognized") :=
  wiridis_lookup baseReg cmConst rfl rfl rfl

end CustomColour
